import Mathlib

/-!
Shallow embedding of the navigation & perception engine of
`digital_city_cars` (`navigation.py`): route decompilation, traffic-light
placement, intersection pedigree vectors, and per-tick front-view perception
(`FrontView`).  Coordinates are rationals; `numpy.isclose` is embedded with
its documented semantics (`|a - b| <= atol + rtol * |b|`, `atol = 1e-8`,
`rtol` as passed, here `1e-6`).  Python's `False` result ("no obstacle" /
"end of route") is `none`; a crash (uncaught exception) is also `none` at
the outer `Option` layer where noted.

The repository's `models` module (vector magnitude, linspace sampling,
parallel-vector test) is not part of the sources embedded here; following
its interface contract those operations enter as explicit parameters
(`mag`, `par`) or as the already-sampled grid (`x_space`, `y_space`).
The road graph and `networkx` shortest-path oracle are likewise external
inputs, passed explicitly.
-/

set_option allowUnsafeReducibility true
attribute [semireducible] Rat.sub Rat.add Rat.mul Rat.inv

/-- A planar point / vector, `(x, y)`. -/
abbrev Pt : Type := ℚ × ℚ

/-- The numpy absolute value on a rational. -/
def rabs (q : ℚ) : ℚ := if q < 0 then -q else q

/-- The numpy default absolute tolerance `1e-8`. -/
def np_atol : ℚ := 1 / 100000000

/-- The relative tolerance `rtol=1.0e-6` passed at every `np.isclose` call
site in `navigation.py`. -/
def np_rtol : ℚ := 1 / 1000000

/-- Embeds `np.isclose(a, b, rtol=1e-6)`: `|a - b| <= atol + rtol * |b|`
(finite inputs; documented numpy semantics). -/
def np_isclose (a b : ℚ) : Bool :=
  decide (rabs (a - b) ≤ np_atol + np_rtol * rabs b)

/-- One row of the cars dataframe: position, remaining waypoint path
(`xpath` / `ypath`), destination node id. -/
structure Car where
  x : ℚ
  y : ℚ
  xpath : List ℚ
  ypath : List ℚ
  destination : Nat
deriving DecidableEq

/-- One row of the lights dataframe: position, `degree` approach
directions, per-direction go values and outward direction-vector
components. -/
structure Light where
  x : ℚ
  y : ℚ
  degree : Nat
  goValues : List Bool
  outXVectors : List ℚ
  outYVectors : List ℚ
deriving DecidableEq

/-- Data attached to one (possibly parallel) edge: its `length` attribute
and its optional `geometry` attribute (an ordered list of points). -/
structure EdgeData where
  length : ℚ
  geometry : Option (List Pt)
deriving DecidableEq

/-- The projected road graph `G`: node positions, the multi-edge data table
`G.get_edge_data(u, v)` (empty list when there is no edge), and the
iteration sequence of `G.edges()`. -/
structure Graph where
  pos : Nat → Pt
  edgeData : Nat → Nat → List EdgeData
  edges : List (Nat × Nat)

/-- Embeds `FrontView.determine_view`: if both `xpath` and `ypath` are non-empty
(Python truthiness), take the first `look_ahead_nodes` coordinates of each
and pair them by index; otherwise return `False` (here `none`, the
end-of-route signal). -/
def determine_view (car : Car) (look_ahead_nodes : Nat) : Option (List Pt) :=
  if car.xpath ≠ [] ∧ car.ypath ≠ [] then
    let x := car.xpath.take look_ahead_nodes
    let y := car.ypath.take look_ahead_nodes
    some ((List.range x.length).map fun i => (x.getD i 0, y.getD i 0))
  else
    none

/-- Embeds `FrontView.crossed_node_event`: reads `view[0]` unconditionally and
compares both coordinates to the car position with `np.isclose`.  When the
view is the end-of-route signal (`none`) or an empty list, the Python
subscript raises; that undefined evaluation is `none`. -/
def crossed_node_event (view : Option (List Pt)) (car : Car) : Option Bool :=
  match view with
  | some (v0 :: _) =>
      some (np_isclose v0.1 car.x && np_isclose v0.2 car.y)
  | _ => none

/-- Embeds `get_position_of_node`: the `(x, y)` stored at the node in `G`. -/
def get_position_of_node (g : Graph) (node : Nat) : Pt := g.pos node

/-- Embeds `FrontView.upcoming_node_position`: with a truthy (non-empty) view,
return `view[1]` if the node was crossed else `view[0]`; with a falsy view
(end of route) fall back to the destination node's raw position.  A Python
`IndexError` (`view[1]` on a one-element view) is `none`. -/
def upcoming_node_position (g : Graph) (view : Option (List Pt)) (car : Car) :
    Option Pt :=
  match view with
  | some (v0 :: rest) =>
      match crossed_node_event (some (v0 :: rest)) car with
      | some true => rest.head?
      | some false => some v0
      | none => none
  | _ => some (get_position_of_node g car.destination)

/-- The per-axis grid test of `car_obstacles` / `light_obstacles`:
`np.isclose(space, value, rtol=1e-6).any()`. -/
def within_linspace (space : List ℚ) (value : ℚ) : Bool :=
  space.any fun s => np_isclose s value

/-- Embeds `car_obstacles`: scan the fleet rows in order, collecting every row
whose `x` is close to some `x_space` sample and whose `y` is close to some
`y_space` sample (the two axes tested independently); if any were
collected, return the magnitude of the vector from the subject car to the
first one, else `False` (`none`).  `mag` is the external
`models.magnitude`; `x_space, y_space` the external
`models.upcoming_linspace` samples. -/
def car_obstacles (mag : Pt → ℚ) (x_space y_space : List ℚ) (carx cary : ℚ)
    (cars : List Pt) : Option ℚ :=
  let obstacles := cars.foldl
    (fun acc c =>
      if within_linspace x_space c.1 && within_linspace y_space c.2 then
        acc ++ [c]
      else acc) []
  match obstacles with
  | [] => none
  | c :: _ => some (mag (c.1 - carx, c.2 - cary))

/-- The `face_vectors` list of `light_obstacles`:
`[(out-xvectors[i], out-yvectors[i]) for i in range(degree)]`. -/
def face_vectors (light : Light) : List Pt :=
  (List.range light.degree).map fun i =>
    (light.outXVectors.getD i 0, light.outYVectors.getD i 0)

/-- Embeds `light_obstacles`: collect the indices of all lights on the sampled
grid (axes tested independently), keep only the first; for that light,
scan `zip(go-values, face_vectors)` in order and return the magnitude of
the car→light vector at the first pair whose go value is false and whose
vector is parallel (external test `par`) to the car→light vector;
otherwise `False` (`none`). -/
def light_obstacles (par : Pt → Pt → Bool) (mag : Pt → ℚ)
    (x_space y_space : List ℚ) (carx cary : ℚ) (lights : List Light) :
    Option ℚ :=
  let light_index := lights.enum.foldl
    (fun acc p =>
      if within_linspace x_space p.2.x && within_linspace y_space p.2.y then
        acc ++ [p.1]
      else acc) []
  match light_index with
  | [] => none
  | i :: _ =>
      match lights[i]? with
      | none => none
      | some light =>
          let car_vector : Pt := (light.x - carx, light.y - cary)
          let pairs := light.goValues.zip (face_vectors light)
          if pairs.any fun p => !p.1 && par car_vector p.2 then
            some (mag car_vector)
          else
            none

/-- Python `min(values, key=lambda x: x.length)`: first element of minimal
length; `none` on the empty list (Python raises `ValueError`). -/
def min_edge_data : List EdgeData → Option EdgeData
  | [] => none
  | d :: ds => some (ds.foldl (fun acc e => if e.length < acc.length then e else acc) d)

/-- The per-pair body of `shortest_path_lines_nx` / `lines_to_node`:
select the minimum-length parallel edge between `u` and `v`; emit its
geometry point list when present, else the straight segment between the
two node positions.  `none` models the uncaught exception when no edge
data exists. -/
def edge_lines (g : Graph) (u v : Nat) : Option (List Pt) :=
  (min_edge_data (g.edgeData u v)).map fun data =>
    match data.geometry with
    | some pts => pts
    | none => [g.pos u, g.pos v]

/-- The edge loop shared by `shortest_path_lines_nx` and `lines_to_node`:
map `edge_lines` over the consecutive node pairs of the route, crashing
(`none`) as Python does if any pair lacks edge data. -/
def route_lines (g : Graph) : List (Nat × Nat) → Option (List (List Pt))
  | [] => some []
  | (u, v) :: rest =>
      (edge_lines g u v).bind fun l => (route_lines g rest).map (l :: ·)

/-- Embeds `shortest_path_lines_nx`: the polyline pieces of a route returned by
the external shortest-path query, one per consecutive node pair. -/
def shortest_path_lines_nx (g : Graph) (route : List Nat) :
    Option (List (List Pt)) :=
  route_lines g (route.zip route.tail)

/-- Embeds `lines_to_node`: a textually identical loop to `shortest_path_lines_nx`
in the source. -/
def lines_to_node (g : Graph) (route : List Nat) : Option (List (List Pt)) :=
  route_lines g (route.zip route.tail)

/-- Embeds `find_traffic_lights`: iterate `G.degree()` with `enumerate`; keep
entry `node` at absolute index `i` when `node[1] > 3 and not (i % 4)`. -/
def find_traffic_lights (degrees : List (Nat × Nat)) : List (Nat × Nat) :=
  let prescale := 4
  degrees.enum.foldl
    (fun acc p => if p.2.2 > 3 ∧ p.1 % prescale = 0 then acc ++ [p.2] else acc) []

/-- The inner `for i, right in enumerate(right_edges): ... right_edges.pop(i)`
of `determine_pedigree`: the live iterator keeps advancing over the mutated
list, so after a pop the element shifted into slot `i` is skipped. -/
def pop_reverses (node_id : Nat) (left : Nat × Nat) (idx : Nat)
    (rights : List (Nat × Nat)) : List (Nat × Nat) :=
  if h : idx < rights.length then
    let right := rights.get ⟨idx, h⟩
    if left.2 = right.1 ∧ right.2 = left.1 then
      pop_reverses node_id left (idx + 1) (rights.eraseIdx idx)
    else
      pop_reverses node_id left (idx + 1) rights
  else rights
termination_by rights.length - idx
decreasing_by
  · simp only [List.length_eraseIdx, h, if_true]
    omega
  · omega

/-- The `left_edges` list of `determine_pedigree`: edges of `G.edges()`
whose source is the node. -/
def pedigree_left_edges (g : Graph) (node_id : Nat) : List (Nat × Nat) :=
  g.edges.foldl (fun acc e => if e.1 = node_id then acc ++ [e] else acc) []

/-- The `right_edges` list of `determine_pedigree`: edges of `G.edges()`
whose target is the node. -/
def pedigree_right_edges (g : Graph) (node_id : Nat) : List (Nat × Nat) :=
  g.edges.foldl (fun acc e => if e.2 = node_id then acc ++ [e] else acc) []

/-- The list `intersection_edges = left_edges + right_edges` after the reverse-edge
pop pass over `right_edges`. -/
def pedigree_intersection_edges (g : Graph) (node_id : Nat) : List (Nat × Nat) :=
  let lefts := pedigree_left_edges g node_id
  lefts ++ lefts.foldl (fun r left => pop_reverses node_id left 0 r)
    (pedigree_right_edges g node_id)

/-- The `out_nodes` list of `determine_pedigree`: the endpoint of each
intersection edge that is not the node itself (the far end of the edge as
the code computes it). -/
def pedigree_out_nodes (g : Graph) (node_id : Nat) : List Nat :=
  (pedigree_intersection_edges g node_id).map fun e =>
    if e.1 = node_id then e.2 else e.1

/-- Embeds `lines_to_node(node_id, node)[0][1]` with the `IndexError` cases
explicit: `none` when the line list is empty or its first line has fewer
than two points. -/
def pedigree_point (ls : List (List Pt)) : Option Pt :=
  ls.head?.bind fun l0 => l0[1]?

/-- The vector-building loop of `determine_pedigree`: for each out node,
compute the road lines via `lines_to_node` (route supplied by the external
shortest-path oracle `routes`); an `IndexError` at `[0][1]` is caught and
the neighbor skipped, any other failure (missing edge data inside
`lines_to_node`) propagates as a crash (`none` overall). -/
def pedigree_vectors (g : Graph) (routes : Nat → Nat → List Nat)
    (node_id : Nat) (position : Pt) : List Nat → Option (List Pt)
  | [] => some []
  | nb :: rest =>
      match lines_to_node g (routes node_id nb) with
      | none => none
      | some ls =>
          match pedigree_point ls with
          | none => pedigree_vectors g routes node_id position rest
          | some point =>
              (pedigree_vectors g routes node_id position rest).map
                (fun vs => (point.1 - position.1, point.2 - position.2) :: vs)

/-- Embeds `determine_pedigree`: one direction vector (intersection position →
first interior point of the approach road's line geometry) per out node
whose geometry resolves. -/
def determine_pedigree (g : Graph) (routes : Nat → Nat → List Nat)
    (node_id : Nat) : Option (List Pt) :=
  pedigree_vectors g routes node_id (get_position_of_node g node_id)
    (pedigree_out_nodes g node_id)

/-- Concrete fixture: a light at `(1, 1)` with one red approach
direction. -/
def w_light : Light := ⟨1, 1, 1, [false], [2], [0]⟩

/-- Concrete fixture: a parallel test that always succeeds. -/
def w_par : Pt → Pt → Bool := fun _ _ => true

/-- Concrete fixture: a magnitude functional projecting the first
component. -/
def w_mag : Pt → ℚ := fun v => v.1

/-- Concrete fixture: a graph placing every node at `(7, 8)`, with no
edges. -/
def w_graph : Graph := ⟨fun _ => (7, 8), fun _ _ => [], []⟩

/-- Concrete fixture: a car at the origin with an exhausted path. -/
def w_car : Car := ⟨0, 0, [], [], 0⟩

/-- Concrete fixture: a car at the origin with two waypoints left. -/
def w_car2 : Car := ⟨0, 0, [1, 2], [3, 4], 5⟩

/-- Concrete fixture: a two-node graph with two parallel edges from node 0
to node 1; the shorter edge carries a two-point geometry. -/
def w_graph2 : Graph :=
  ⟨fun n => ((n : ℚ), (n : ℚ)),
   fun u v => if u = 0 ∧ v = 1 then [⟨5, none⟩, ⟨3, some [(1, 1), (2, 2)]⟩] else [],
   [(0, 1)]⟩

/-- Concrete fixture: a graph with one directed edge `0 → 1` whose single
edge datum carries a two-point geometry. -/
def w_graph3 : Graph :=
  ⟨fun _ => (0, 0),
   fun u v => if u = 0 ∧ v = 1 then [⟨1, some [(0, 0), (4, 5)]⟩] else [],
   [(0, 1)]⟩

/-- Concrete fixture: a shortest-path oracle knowing only the route
`0 → 1`. -/
def w_routes : Nat → Nat → List Nat :=
  fun u v => if u = 0 ∧ v = 1 then [0, 1] else []

/-- The conditional-append folds of `navigation.py` are filtered maps. -/
theorem foldl_append_filter {α β : Type} (p : α → Prop) [DecidablePred p]
    (f : α → β) :
    ∀ (l : List α) (acc : List β),
      l.foldl (fun acc x => if p x then acc ++ [f x] else acc) acc
        = acc ++ ((l.filter fun x => decide (p x)).map f) := by
  intro l
  induction l with
  | nil => intro acc; simp
  | cons x xs ih =>
      intro acc
      by_cases h : p x <;> simp [List.foldl_cons, List.filter_cons, h, ih]

/-- C1: `find_traffic_lights` keeps an entry iff its degree exceeds 3 and
its zero-based absolute index in the full `G.degree()` iteration is a
multiple of the prescale factor 4; the index tested is the absolute
iteration position, not the position among eligible entries. -/
theorem find_traffic_lights_members (degrees : List (Nat × Nat))
    (node : Nat × Nat) :
    node ∈ find_traffic_lights degrees ↔
      ∃ i, degrees[i]? = some node ∧ node.2 > 3 ∧ i % 4 = 0 := by
  unfold find_traffic_lights
  rw [foldl_append_filter (fun p : Nat × (Nat × Nat) => p.2.2 > 3 ∧ p.1 % 4 = 0)]
  simp only [List.nil_append, List.mem_map, List.mem_filter,
    decide_eq_true_eq]
  constructor
  · rintro ⟨⟨i, a⟩, ⟨hmem, hdeg, hmod⟩, rfl⟩
    exact ⟨i, List.mk_mem_enum_iff_getElem?.mp hmem, hdeg, hmod⟩
  · rintro ⟨i, hget, hdeg, hmod⟩
    exact ⟨⟨i, node⟩, ⟨List.mk_mem_enum_iff_getElem?.mpr hget, hdeg, hmod⟩, rfl⟩

/-- The head of a filtered list is the first element satisfying the
predicate. -/
theorem filter_head_eq_find {α : Type} (p : α → Bool) (l : List α) :
    (l.filter p).head? = l.find? p := by
  induction l with
  | nil => rfl
  | cons x xs ih =>
      by_cases h : p x <;> simp [List.filter_cons, List.find?_cons, h, ih]

/-- Specialisation of `foldl_append_filter` to the identity map. -/
theorem foldl_append_filter_self {α : Type} (p : α → Prop) [DecidablePred p]
    (l : List α) (acc : List α) :
    l.foldl (fun acc x => if p x then acc ++ [x] else acc) acc
      = acc ++ (l.filter fun x => decide (p x)) := by
  simpa using foldl_append_filter p id l acc

/-- Helper: `car_obstacles` is the first fleet row passing the per-axis grid test,
mapped to its distance. -/
theorem car_obstacles_eq_head (mag : Pt → ℚ) (x_space y_space : List ℚ)
    (carx cary : ℚ) (cars : List Pt) :
    car_obstacles mag x_space y_space carx cary cars
      = (cars.find? fun c =>
          within_linspace x_space c.1 && within_linspace y_space c.2).map
          fun c => mag (c.1 - carx, c.2 - cary) := by
  rw [← filter_head_eq_find]
  unfold car_obstacles
  rw [foldl_append_filter_self]
  simp only [List.nil_append, Bool.decide_coe]
  cases cars.filter
      (fun c => within_linspace x_space c.1 && within_linspace y_space c.2) <;>
    simp

/-- C2: `car_obstacles` (the body of `FrontView.distance_to_car`) returns
the magnitude of the vector from the subject car to the **first** fleet row
(in fleet iteration order) whose `x` is close to some grid `x`-sample and
whose `y` is close to some grid `y`-sample, and `none` ("no obstacle") when
no row qualifies — first match in input order, not nearest match. -/
theorem car_obstacles_first_match (mag : Pt → ℚ) (x_space y_space : List ℚ)
    (carx cary : ℚ) (cars : List Pt) :
    car_obstacles mag x_space y_space carx cary cars
      = (cars.find? fun c =>
          within_linspace x_space c.1 && within_linspace y_space c.2).map
          fun c => mag (c.1 - carx, c.2 - cary) :=
  car_obstacles_eq_head mag x_space y_space carx cary cars

/-- Head of an index-carrying filtered enumeration: relates the first
surviving `(index, element)` pair to `find?` on the underlying list. -/
theorem enumFrom_filter_head {α : Type} (p : α → Bool) :
    ∀ (l : List α) (n : Nat),
      ((((l.enumFrom n).filter fun q => p q.2).head? = none → l.find? p = none)
      ∧ ∀ i a, ((l.enumFrom n).filter fun q => p q.2).head? = some (i, a) →
          n ≤ i ∧ l[i - n]? = some a ∧ l.find? p = some a) := by
  intro l
  induction l with
  | nil => intro n; exact ⟨fun _ => rfl, fun i a h => by simp at h⟩
  | cons x xs ih =>
      intro n
      by_cases hp : p x
      · refine ⟨fun h => by simp [List.filter_cons, hp] at h, ?_⟩
        intro i a h
        simp only [List.enumFrom, List.filter_cons, hp, List.head?_cons,
          Option.some.injEq, Prod.mk.injEq] at h
        obtain ⟨rfl, rfl⟩ := h
        simp [List.find?_cons, hp]
      · have hrec := ih (n + 1)
        refine ⟨fun h => ?_, fun i a h => ?_⟩
        · simp only [List.enumFrom, List.filter_cons, hp] at h
          simp [List.find?_cons, hp, hrec.1 h]
        · simp only [List.enumFrom, List.filter_cons, hp] at h
          obtain ⟨hni, hget, hfind⟩ := hrec.2 i a h
          refine ⟨by omega, ?_, by simp [List.find?_cons, hp, hfind]⟩
          have : i - n = (i - (n + 1)) + 1 := by omega
          rw [this]
          simpa using hget

/-- Helper: `light_obstacles` is determined by the first light row passing the
per-axis grid test. -/
theorem light_obstacles_eq_head (par : Pt → Pt → Bool) (mag : Pt → ℚ)
    (x_space y_space : List ℚ) (carx cary : ℚ) (lights : List Light) :
    light_obstacles par mag x_space y_space carx cary lights
      = match lights.find? (fun l =>
            within_linspace x_space l.x && within_linspace y_space l.y) with
        | none => none
        | some light =>
            if (light.goValues.zip (face_vectors light)).any fun p =>
                !p.1 && par (light.x - carx, light.y - cary) p.2 then
              some (mag (light.x - carx, light.y - cary))
            else
              none := by
  unfold light_obstacles
  rw [foldl_append_filter
    (fun q : Nat × Light =>
      (within_linspace x_space q.2.x && within_linspace y_space q.2.y) = true)
    Prod.fst]
  simp only [List.nil_append, Bool.decide_coe]
  have hspec := enumFrom_filter_head
    (fun l : Light => within_linspace x_space l.x && within_linspace y_space l.y)
    lights 0
  rw [show lights.enum = lights.enumFrom 0 from rfl]
  rcases hq : (((lights.enumFrom 0).filter fun q =>
      within_linspace x_space q.2.x && within_linspace y_space q.2.y)) with _ | ⟨⟨i, a⟩, t⟩
  · have hnone := hspec.1 (by simp [hq])
    simp [hq, hnone]
  · have hsome := hspec.2 i a (by simp [hq])
    obtain ⟨-, hget, hfind⟩ := hsome
    have hget2 : lights[i]? = some a := by simpa using hget
    simp [hq, hfind, hget2]

/-- C6 counterexample: the grid match of `car_obstacles` tests the two axes
independently, so a fleet row at `(0, 100)` whose position coincides with
**no** sampled grid point of the grid `(0,0), (100,100)` — its `x` matches
only the first point, its `y` only the second — is still reported as an
obstacle, contradicting the claim that such an entry yields "no
obstacle". -/
theorem car_obstacles_cross_axis_cex :
    car_obstacles (fun v => v.2) [0, 100] [0, 100] 0 0 [(0, 100)] = some 100
    ∧ ¬(np_isclose 0 0 = true ∧ np_isclose 0 100 = true)
    ∧ ¬(np_isclose 100 0 = true ∧ np_isclose 100 100 = true) := by
  decide

/-- C6 (amended): `car_obstacles` and `light_obstacles` return "no
obstacle" (`none`) when no fleet/light row passes the per-axis grid test —
`x` close to some `x`-sample **and** `y` close to some `y`-sample, the two
axes tested independently of each other. -/
theorem obstacles_none_of_no_axis_match (mag : Pt → ℚ) (par : Pt → Pt → Bool)
    (x_space y_space : List ℚ) (carx cary : ℚ) (cars : List Pt)
    (lights : List Light)
    (hc : ∀ c ∈ cars,
      ¬(within_linspace x_space c.1 = true ∧ within_linspace y_space c.2 = true))
    (hl : ∀ l ∈ lights,
      ¬(within_linspace x_space l.x = true ∧ within_linspace y_space l.y = true)) :
    car_obstacles mag x_space y_space carx cary cars = none
    ∧ light_obstacles par mag x_space y_space carx cary lights = none := by
  constructor
  · rw [car_obstacles_eq_head]
    have hf : cars.find? (fun c =>
        within_linspace x_space c.1 && within_linspace y_space c.2) = none := by
      rw [List.find?_eq_none]
      intro c hcmem
      have := hc c hcmem
      simp only [Bool.and_eq_true]
      tauto
    rw [hf]
    rfl
  · rw [light_obstacles_eq_head]
    have hf : lights.find? (fun l =>
        within_linspace x_space l.x && within_linspace y_space l.y) = none := by
      rw [List.find?_eq_none]
      intro l hlmem
      have := hl l hlmem
      simp only [Bool.and_eq_true]
      tauto
    rw [hf]

/-- Witness for `obstacles_none_of_no_axis_match`: a fleet row and a light
at `(50, 50)`, far from the single grid sample `(0, 0)`. -/
theorem obstacles_none_of_no_axis_match_witness :
    car_obstacles w_mag [0] [0] 0 0 [(50, 50)] = none
    ∧ light_obstacles w_par w_mag [0] [0] 0 0 [⟨50, 50, 0, [], [], []⟩] = none :=
  obstacles_none_of_no_axis_match w_mag w_par [0] [0] 0 0
    [(50, 50)] [⟨50, 50, 0, [], [], []⟩] (by decide) (by decide)

/-- C3: when a light table has a first row on the sampled grid,
`light_obstacles` (the body of `FrontView.distance_to_light`) is computed
from that first matching light only: it returns the magnitude of the
car→light vector exactly when some approach direction of that light
carries go value `false` together with a direction vector that passes the
parallel test against the car→light vector, and returns the "no obstacle"
result (`none`) otherwise — red-but-not-parallel, green, or no matching
direction all yield `none`, never an error. -/
theorem light_obstacles_red_parallel (par : Pt → Pt → Bool) (mag : Pt → ℚ)
    (x_space y_space : List ℚ) (carx cary : ℚ) (lights : List Light)
    (light : Light)
    (hfind : lights.find? (fun l =>
        within_linspace x_space l.x && within_linspace y_space l.y) = some light)
    (hlen : light.goValues.length = light.degree) :
    (light_obstacles par mag x_space y_space carx cary lights
        = some (mag (light.x - carx, light.y - cary))
      ↔ ∃ i, i < light.degree ∧ light.goValues[i]? = some false
          ∧ par (light.x - carx, light.y - cary)
              (light.outXVectors.getD i 0, light.outYVectors.getD i 0) = true)
    ∧ ((¬∃ i, i < light.degree ∧ light.goValues[i]? = some false
          ∧ par (light.x - carx, light.y - cary)
              (light.outXVectors.getD i 0, light.outYVectors.getD i 0) = true) →
        light_obstacles par mag x_space y_space carx cary lights = none) := by
  have heq0 := light_obstacles_eq_head par mag x_space y_space carx cary lights
  rw [hfind] at heq0
  have heq : light_obstacles par mag x_space y_space carx cary lights
      = if ((light.goValues.zip (face_vectors light)).any fun p =>
          !p.1 && par (light.x - carx, light.y - cary) p.2) then
        some (mag (light.x - carx, light.y - cary))
      else none := heq0
  have hfvlen : (face_vectors light).length = light.degree := by
    simp [face_vectors]
  have hziplen : (light.goValues.zip (face_vectors light)).length
      = light.degree := by
    simp [List.length_zip, hfvlen, hlen]
  have hany : ((light.goValues.zip (face_vectors light)).any fun p =>
        !p.1 && par (light.x - carx, light.y - cary) p.2) = true
      ↔ ∃ i, i < light.degree ∧ light.goValues[i]? = some false
          ∧ par (light.x - carx, light.y - cary)
              (light.outXVectors.getD i 0, light.outYVectors.getD i 0) = true := by
    rw [List.any_eq_true]
    constructor
    · rintro ⟨pr, hmem, hf⟩
      rw [List.mem_iff_getElem] at hmem
      obtain ⟨i, hi, hzipeq⟩ := hmem
      have hideg : i < light.degree := by rw [← hziplen]; exact hi
      have higo : i < light.goValues.length := by rw [hlen]; exact hideg
      have hifv : i < (face_vectors light).length := by rw [hfvlen]; exact hideg
      rw [List.getElem_zip] at hzipeq
      have hv : (face_vectors light)[i]
          = (light.outXVectors.getD i 0, light.outYVectors.getD i 0) := by
        simp only [face_vectors, List.getElem_map, List.getElem_range]
      subst hzipeq
      rw [hv] at hf
      simp only [Bool.and_eq_true] at hf
      have hb : light.goValues[i] = false := by
        cases hval : light.goValues[i]
        · rfl
        · rw [hval] at hf; exact absurd hf.1 (by simp)
      refine ⟨i, hideg, ?_, hf.2⟩
      rw [List.getElem?_eq_getElem higo, hb]
    · rintro ⟨i, hideg, hgo, hpar⟩
      have higo : i < light.goValues.length := by rw [hlen]; exact hideg
      have hifv : i < (face_vectors light).length := by rw [hfvlen]; exact hideg
      have hizip : i < (light.goValues.zip (face_vectors light)).length := by
        rw [hziplen]; exact hideg
      refine ⟨(light.goValues.zip (face_vectors light))[i],
        List.getElem_mem hizip, ?_⟩
      rw [List.getElem_zip]
      have hb : light.goValues[i] = false := by
        rw [List.getElem?_eq_getElem higo] at hgo
        exact Option.some.inj hgo
      have hv : (face_vectors light)[i]
          = (light.outXVectors.getD i 0, light.outYVectors.getD i 0) := by
        simp only [face_vectors, List.getElem_map, List.getElem_range]
      rw [hb, hv]
      simp only [Bool.not_false, Bool.true_and]
      exact hpar
  constructor
  · rw [heq]
    cases hb : ((light.goValues.zip (face_vectors light)).any fun p =>
        !p.1 && par (light.x - carx, light.y - cary) p.2)
    · rw [if_neg (by simp [hb])]
      constructor
      · intro hcontr; exact Option.noConfusion hcontr
      · intro hex
        exact absurd (hany.mpr hex) (by simp [hb])
    · rw [if_pos (by simp [hb])]
      exact ⟨fun _ => hany.mp hb, fun _ => rfl⟩
  · intro hnex
    rw [heq]
    rw [if_neg (fun h => hnex (hany.mp h))]

/-- Witness for `light_obstacles_red_parallel`: a single red light on the
grid with an always-parallel test. -/
theorem light_obstacles_red_parallel_witness :
    (light_obstacles w_par w_mag [1] [1] 0 0 [w_light]
        = some (w_mag (w_light.x - 0, w_light.y - 0))
      ↔ ∃ i, i < w_light.degree ∧ w_light.goValues[i]? = some false
          ∧ w_par (w_light.x - 0, w_light.y - 0)
              (w_light.outXVectors.getD i 0, w_light.outYVectors.getD i 0) = true)
    ∧ ((¬∃ i, i < w_light.degree ∧ w_light.goValues[i]? = some false
          ∧ w_par (w_light.x - 0, w_light.y - 0)
              (w_light.outXVectors.getD i 0, w_light.outYVectors.getD i 0) = true) →
        light_obstacles w_par w_mag [1] [1] 0 0 [w_light] = none) :=
  light_obstacles_red_parallel w_par w_mag [1] [1] 0 0 [w_light] w_light
    (by decide) (by decide)

/-- C5 counterexample: with the car at the origin and the first view
waypoint at `x = 1e-9`, the `x`-axis offset exceeds the `1e-6` relative
tolerance under either reading of "relative" (`1e-6·|car.x| = 0` and
`1e-6·|waypoint.x| = 1e-15` are both below the offset `1e-9`), yet
`crossed_node_event` returns `true`, because `np.isclose` additionally
grants the absolute tolerance `atol = 1e-8`. -/
theorem crossed_node_event_rtol_cex :
    crossed_node_event (some [((1 : ℚ)/1000000000, 0)])
        { x := 0, y := 0, xpath := [], ypath := [], destination := 0 } = some true
    ∧ ¬(rabs ((1 : ℚ)/1000000000 - 0) ≤ np_rtol * rabs (0 : ℚ))
    ∧ ¬(rabs ((1 : ℚ)/1000000000 - 0) ≤ np_rtol * rabs ((1 : ℚ)/1000000000)) := by
  decide

/-- C5 (amended): on a non-empty view, `crossed_node_event` is `true` iff
on each axis the offset between the first waypoint and the car position is
within numpy's combined `isclose` tolerance
`atol + rtol·|car coordinate|` (`atol = 1e-8`, `rtol = 1e-6`), and `false`
exactly when either axis exceeds that combined tolerance. -/
theorem crossed_node_event_tolerance (car : Car) (v0 : Pt) (rest : List Pt) :
    (crossed_node_event (some (v0 :: rest)) car = some true
      ↔ (rabs (v0.1 - car.x) ≤ np_atol + np_rtol * rabs car.x
          ∧ rabs (v0.2 - car.y) ≤ np_atol + np_rtol * rabs car.y))
    ∧ (crossed_node_event (some (v0 :: rest)) car = some false
      ↔ ¬(rabs (v0.1 - car.x) ≤ np_atol + np_rtol * rabs car.x
          ∧ rabs (v0.2 - car.y) ≤ np_atol + np_rtol * rabs car.y)) := by
  constructor
  · simp [crossed_node_event, np_isclose, Bool.and_eq_true]
  · simp [crossed_node_event, np_isclose, Bool.and_eq_false_iff,
      Decidable.not_and_iff_or_not]

/-- C4: `upcoming_node_position` returns the second view waypoint when the
node-crossing test fires, the first view waypoint when it does not, and
the raw position of the car's destination node when the view is the
end-of-route signal. -/
theorem upcoming_node_position_cases (g : Graph) (car : Car) :
    (∀ v0 v1 rest, crossed_node_event (some (v0 :: v1 :: rest)) car = some true →
        upcoming_node_position g (some (v0 :: v1 :: rest)) car = some v1)
    ∧ (∀ v0 rest, crossed_node_event (some (v0 :: rest)) car = some false →
        upcoming_node_position g (some (v0 :: rest)) car = some v0)
    ∧ upcoming_node_position g none car
        = some (get_position_of_node g car.destination) := by
  refine ⟨?_, ?_, rfl⟩
  · intro v0 v1 rest h
    show (match crossed_node_event (some (v0 :: v1 :: rest)) car with
      | some true => (v1 :: rest).head?
      | some false => some v0
      | none => none) = some v1
    rw [h]
    rfl
  · intro v0 rest h
    show (match crossed_node_event (some (v0 :: rest)) car with
      | some true => rest.head?
      | some false => some v0
      | none => none) = some v0
    rw [h]

/-- Witness for `upcoming_node_position_cases`: a car exactly on its first
waypoint (crossed), a car away from it (not crossed), and an exhausted
view. -/
theorem upcoming_node_position_cases_witness :
    upcoming_node_position w_graph (some [(0, 0), (5, 7)]) w_car = some (5, 7)
    ∧ upcoming_node_position w_graph (some [(9, 9)]) w_car = some (9, 9)
    ∧ upcoming_node_position w_graph none w_car
        = some (get_position_of_node w_graph w_car.destination) :=
  ⟨(upcoming_node_position_cases w_graph w_car).1 (0, 0) (5, 7) [] (by decide),
   (upcoming_node_position_cases w_graph w_car).2.1 (9, 9) [] (by decide),
   (upcoming_node_position_cases w_graph w_car).2.2⟩

/-- An index-wise paired range is `zip` once lengths agree. -/
theorem range_map_getD_eq_zip :
    ∀ (x y : List ℚ), x.length = y.length →
      (List.range x.length).map (fun i => ((x.getD i 0, y.getD i 0) : Pt))
        = x.zip y := by
  intro x
  induction x with
  | nil => intro y h; simp
  | cons a xt ih =>
      intro y h
      cases y with
      | nil => simp at h
      | cons b yt =>
          have htail := ih yt (by simpa using h)
          simp only [List.length_cons, List.range_succ_eq_map, List.map_cons,
            List.map_map, List.zip_cons_cons]
          refine congrArg₂ List.cons (by simp) ?_
          have hcomp : ∀ i ∈ List.range xt.length,
              ((fun i => ((((a :: xt).getD i 0 : ℚ), ((b :: yt).getD i 0 : ℚ)) : Pt))
                  ∘ Nat.succ) i
                = (fun i => (((xt.getD i 0 : ℚ), (yt.getD i 0 : ℚ)) : Pt)) i := by
            intro i hi
            simp [Function.comp, List.getD_cons_succ]
          rw [List.map_congr_left hcomp, htail]

/-- C9: with the documented equal-length path invariant,
`FrontView.determine_view` pairs the first `min(K, path length)` waypoints
into coordinate tuples — never more than the configured look-ahead count
`K` — when the remaining path is non-empty, and returns the distinct
end-of-route signal (`none`, Python `False`), not an error, when the
remaining path is empty. -/
theorem determine_view_spec (car : Car) (k : Nat)
    (hlen : car.xpath.length = car.ypath.length) :
    (car.xpath ≠ [] →
      determine_view car k = some ((car.xpath.take k).zip (car.ypath.take k))
      ∧ ((car.xpath.take k).zip (car.ypath.take k)).length
          = min k car.xpath.length
      ∧ ((car.xpath.take k).zip (car.ypath.take k)).length ≤ k)
    ∧ (car.xpath = [] → determine_view car k = none) := by
  constructor
  · intro hne
    have hyne : car.ypath ≠ [] := by
      intro h0
      apply hne
      rw [← List.length_eq_zero] at h0 ⊢
      omega
    have htake : (car.xpath.take k).length = (car.ypath.take k).length := by
      simp [List.length_take, hlen]
    refine ⟨?_, ?_, ?_⟩
    · rw [determine_view, if_pos ⟨hne, hyne⟩]
      show some ((List.range (car.xpath.take k).length).map
          fun i => (((car.xpath.take k).getD i 0 : ℚ),
            ((car.ypath.take k).getD i 0 : ℚ))) = _
      rw [range_map_getD_eq_zip (car.xpath.take k) (car.ypath.take k) htake]
    · simp [List.length_zip, List.length_take, hlen]
    · simp [List.length_zip, List.length_take]
  · intro hempty
    rw [determine_view, if_neg]
    intro hcond
    exact hcond.1 hempty

/-- Witness for `determine_view_spec`: a two-waypoint path viewed with the
default look-ahead count 3. -/
theorem determine_view_spec_witness :
    determine_view w_car2 3 = some ((w_car2.xpath.take 3).zip (w_car2.ypath.take 3))
    ∧ ((w_car2.xpath.take 3).zip (w_car2.ypath.take 3)).length
        = min 3 w_car2.xpath.length
    ∧ ((w_car2.xpath.take 3).zip (w_car2.ypath.take 3)).length ≤ 3 :=
  (determine_view_spec w_car2 3 (by decide)).1 (by decide)

/-- C10: `crossed_node_event` is undefined (Python raises on the `view[0]`
subscript, modelled `none`) when the view carries the end-of-route signal,
and total — it returns `some` boolean — whenever the view is a non-empty
waypoint list; consumers must therefore check for end of route first. -/
theorem crossed_node_event_needs_view (car : Car) :
    crossed_node_event none car = none
    ∧ ∀ v : List Pt, v ≠ [] → ∃ b, crossed_node_event (some v) car = some b := by
  refine ⟨rfl, ?_⟩
  intro v hv
  cases v with
  | nil => exact absurd rfl hv
  | cons v0 t => exact ⟨_, rfl⟩

/-- Witness for `crossed_node_event_needs_view` at a one-waypoint view. -/
theorem crossed_node_event_needs_view_witness :
    crossed_node_event none w_car = none
    ∧ ∃ b, crossed_node_event (some [((1 : ℚ), 2)]) w_car = some b :=
  ⟨(crossed_node_event_needs_view w_car).1,
   (crossed_node_event_needs_view w_car).2 [((1 : ℚ), 2)] (by decide)⟩

/-- The running minimum of Python's `min(..., key=length)` fold is a list
member of minimal length. -/
theorem foldl_min_spec :
    ∀ (ds : List EdgeData) (d : EdgeData),
      (ds.foldl (fun acc e => if e.length < acc.length then e else acc) d) ∈ (d :: ds)
      ∧ ∀ e2 ∈ (d :: ds),
          (ds.foldl (fun acc e => if e.length < acc.length then e else acc) d).length
            ≤ e2.length := by
  intro ds
  induction ds with
  | nil =>
      intro d
      refine ⟨by simp, ?_⟩
      intro e2 he2
      simp only [List.mem_singleton] at he2
      subst he2
      exact le_refl _
  | cons e es ih =>
      intro d
      obtain ⟨hmem, hle⟩ := ih (if e.length < d.length then e else d)
      rw [List.foldl_cons]
      have hd : (if e.length < d.length then e else d).length ≤ d.length := by
        split
        · exact le_of_lt (by assumption)
        · exact le_refl _
      have he : (if e.length < d.length then e else d).length ≤ e.length := by
        split
        · exact le_refl _
        · exact le_of_not_lt (by assumption)
      constructor
      · rcases List.mem_cons.mp hmem with hhd | htl
        · rw [hhd]
          split
          · exact List.mem_cons_of_mem _ (List.mem_cons_self _ _)
          · exact List.mem_cons_self _ _
        · exact List.mem_cons_of_mem _ (List.mem_cons_of_mem _ htl)
      · intro e2 he2
        rcases List.mem_cons.mp he2 with h1 | h2
        · subst h1
          exact le_trans (hle _ (List.mem_cons_self _ _)) hd
        · rcases List.mem_cons.mp h2 with h3 | h4
          · subst h3
            exact le_trans (hle _ (List.mem_cons_self _ _)) he
          · exact hle _ (List.mem_cons_of_mem _ h4)

/-- Lemma: `min_edge_data` of a non-empty list is a member of minimal length. -/
theorem min_edge_data_spec (l : List EdgeData) (h : l ≠ []) :
    ∃ e, min_edge_data l = some e ∧ e ∈ l ∧ ∀ e2 ∈ l, e.length ≤ e2.length := by
  cases l with
  | nil => exact absurd rfl h
  | cons d ds =>
      obtain ⟨hmem, hle⟩ := foldl_min_spec ds d
      exact ⟨_, rfl, hmem, hle⟩

/-- Lemma: `edge_lines` emits the geometry (or straight segment) of a
minimum-length parallel edge. -/
theorem edge_lines_spec (g : Graph) (u v : Nat) (h : g.edgeData u v ≠ []) :
    ∃ e, e ∈ g.edgeData u v ∧ (∀ e2 ∈ g.edgeData u v, e.length ≤ e2.length)
      ∧ edge_lines g u v = some (match e.geometry with
          | some pts => pts
          | none => [g.pos u, g.pos v]) := by
  obtain ⟨e, hmin, hmem, hle⟩ := min_edge_data_spec _ h
  refine ⟨e, hmem, hle, ?_⟩
  unfold edge_lines
  rw [hmin]
  rfl

/-- The route loop succeeds on any pair list whose edge tables are
non-empty, emitting the minimum-length edge's polyline for each pair in
order. -/
theorem route_lines_spec (g : Graph) :
    ∀ (prs : List (Nat × Nat)), (∀ p ∈ prs, g.edgeData p.1 p.2 ≠ []) →
      ∃ L, route_lines g prs = some L
        ∧ List.Forall₂ (fun (p : Nat × Nat) (line : List Pt) =>
            ∃ e, e ∈ g.edgeData p.1 p.2
              ∧ (∀ e2 ∈ g.edgeData p.1 p.2, e.length ≤ e2.length)
              ∧ line = match e.geometry with
                  | some pts => pts
                  | none => [g.pos p.1, g.pos p.2]) prs L := by
  intro prs
  induction prs with
  | nil => exact fun _ => ⟨[], rfl, List.Forall₂.nil⟩
  | cons p rest ih =>
      rcases p with ⟨u, v⟩
      intro h
      obtain ⟨e, hmem, hle, helines⟩ := edge_lines_spec g u v (h (u, v) (by simp))
      obtain ⟨L, hL, hforall⟩ := ih (fun q hq => h q (by simp [hq]))
      refine ⟨(match e.geometry with
          | some pts => pts
          | none => [g.pos u, g.pos v]) :: L, ?_, ?_⟩
      · show (edge_lines g u v).bind
            (fun l => (route_lines g rest).map (l :: ·)) = _
        rw [helines, hL]
        rfl
      · exact List.Forall₂.cons ⟨e, hmem, hle, rfl⟩ hforall

/-- C7: on a route whose consecutive pairs all have edge data,
`shortest_path_lines_nx` succeeds and emits, for each consecutive node
pair in route order, the polyline of a minimum-length edge among the
parallel edges of that pair — the edge's full geometry point sequence when
it has one, otherwise the straight segment between the two node
positions. -/
theorem shortest_path_lines_min_edge (g : Graph) (route : List Nat)
    (h : ∀ p ∈ route.zip route.tail, g.edgeData p.1 p.2 ≠ []) :
    ∃ L, shortest_path_lines_nx g route = some L
      ∧ List.Forall₂ (fun (p : Nat × Nat) (line : List Pt) =>
          ∃ e, e ∈ g.edgeData p.1 p.2
            ∧ (∀ e2 ∈ g.edgeData p.1 p.2, e.length ≤ e2.length)
            ∧ line = match e.geometry with
                | some pts => pts
                | none => [g.pos p.1, g.pos p.2]) (route.zip route.tail) L :=
  route_lines_spec g (route.zip route.tail) h

/-- Witness for `shortest_path_lines_min_edge` on the parallel-edge
fixture graph. -/
theorem shortest_path_lines_min_edge_witness :
    ∃ L, shortest_path_lines_nx w_graph2 [0, 1] = some L
      ∧ List.Forall₂ (fun (p : Nat × Nat) (line : List Pt) =>
          ∃ e, e ∈ w_graph2.edgeData p.1 p.2
            ∧ (∀ e2 ∈ w_graph2.edgeData p.1 p.2, e.length ≤ e2.length)
            ∧ line = match e.geometry with
                | some pts => pts
                | none => [w_graph2.pos p.1, w_graph2.pos p.2])
          (([0, 1] : List Nat).zip ([0, 1] : List Nat).tail) L :=
  shortest_path_lines_min_edge w_graph2 [0, 1] (by decide)

/-- When every neighbor's `lines_to_node` call succeeds, the pedigree
vector loop is a `filterMap`: neighbors whose `[0][1]` indexing fails are
skipped, resolved neighbors contribute their direction vector in order. -/
theorem pedigree_vectors_eq (g : Graph) (routes : Nat → Nat → List Nat)
    (node_id : Nat) (position : Pt) :
    ∀ (nbs : List Nat),
      (∀ nb ∈ nbs, ∃ ls, lines_to_node g (routes node_id nb) = some ls) →
      pedigree_vectors g routes node_id position nbs
        = some (nbs.filterMap fun nb =>
            (pedigree_point ((lines_to_node g (routes node_id nb)).getD [])).map
              fun pt => ((pt.1 - position.1, pt.2 - position.2) : Pt)) := by
  intro nbs
  induction nbs with
  | nil => exact fun _ => rfl
  | cons nb rest ih =>
      intro h
      obtain ⟨ls, hls⟩ := h nb (by simp)
      have hrest := ih (fun x hx => h x (by simp [hx]))
      show (match lines_to_node g (routes node_id nb) with
        | none => none
        | some ls =>
            match pedigree_point ls with
            | none => pedigree_vectors g routes node_id position rest
            | some point =>
                (pedigree_vectors g routes node_id position rest).map
                  (fun vs => ((point.1 - position.1, point.2 - position.2) : Pt) :: vs)) = _
      rw [hls, List.filterMap_cons, hls]
      cases hpt : pedigree_point ls
      · simp only [Option.getD_some, hpt, Option.map_none']
        exact hrest
      · simp only [Option.getD_some, hpt, Option.map_some']
        rw [hrest]
        rfl

/-- C8: whenever every computed out-node of an intersection has a valid
route (non-empty edge data along it), `determine_pedigree` succeeds and
returns exactly one direction vector per out-node whose road geometry
resolves at `[0][1]`, silently omitting the others, so the result is a
`filterMap` over the out-node list and its length never exceeds that
list's length. -/
theorem determine_pedigree_skips_unresolved (g : Graph)
    (routes : Nat → Nat → List Nat) (node_id : Nat)
    (h : ∀ nb ∈ pedigree_out_nodes g node_id,
        ∀ p ∈ (routes node_id nb).zip (routes node_id nb).tail,
          g.edgeData p.1 p.2 ≠ []) :
    ∃ vs, determine_pedigree g routes node_id = some vs
      ∧ vs = (pedigree_out_nodes g node_id).filterMap (fun nb =>
          (pedigree_point ((lines_to_node g (routes node_id nb)).getD [])).map
            fun pt => ((pt.1 - (get_position_of_node g node_id).1,
              pt.2 - (get_position_of_node g node_id).2) : Pt))
      ∧ vs.length ≤ (pedigree_out_nodes g node_id).length := by
  have hlines : ∀ nb ∈ pedigree_out_nodes g node_id,
      ∃ ls, lines_to_node g (routes node_id nb) = some ls := by
    intro nb hnb
    obtain ⟨L, hL, -⟩ := route_lines_spec g
      ((routes node_id nb).zip (routes node_id nb).tail) (h nb hnb)
    exact ⟨L, hL⟩
  have heq := pedigree_vectors_eq g routes node_id
    (get_position_of_node g node_id) (pedigree_out_nodes g node_id) hlines
  exact ⟨_, heq, rfl, List.length_filterMap_le _ _⟩

/-- Witness for `determine_pedigree_skips_unresolved` on the one-edge
fixture graph: the single out-node 1 resolves and yields vector `(4, 5)`. -/
theorem determine_pedigree_skips_unresolved_witness :
    ∃ vs, determine_pedigree w_graph3 w_routes 0 = some vs
      ∧ vs = (pedigree_out_nodes w_graph3 0).filterMap (fun nb =>
          (pedigree_point ((lines_to_node w_graph3 (w_routes 0 nb)).getD [])).map
            fun pt => ((pt.1 - (get_position_of_node w_graph3 0).1,
              pt.2 - (get_position_of_node w_graph3 0).2) : Pt))
      ∧ vs.length ≤ (pedigree_out_nodes w_graph3 0).length :=
  determine_pedigree_skips_unresolved w_graph3 w_routes 0 (by
    intro nb hnb p hp
    by_cases h1 : nb = 1
    · subst h1
      have hroute : w_routes 0 1 = [0, 1] := rfl
      rw [hroute] at hp
      have hzip : ([0, 1] : List Nat).zip ([0, 1] : List Nat).tail = [(0, 1)] := rfl
      rw [hzip] at hp
      simp only [List.mem_singleton] at hp
      subst hp
      decide
    · have hroute : w_routes 0 nb = [] := by simp [w_routes, h1]
      rw [hroute] at hp
      simp at hp)
